import Mathlib

/-!
# Verification of the twitchplays-retroarch command pipeline

A shallow embedding of `twitchplays_retroarch/__init__.py`: the command
table lookup, the message-handling gate, the input queue, the worker body
(`input_queue_pop`), the enable/disable toggle, and the wiring performed
by `main`.  Side effects (logging, key emulation, sleeping, submitting a
worker) are recorded as explicit trace events; chat-network and OS
key-emulation collaborators are abstracted behind small interfaces.

Durations (`keypress_duration`, `keypress_delay`) are modelled as exact
rationals: the code only stores and forwards them, never computes with
them, so the number representation is irrelevant to every property here.

Case folding (`str.casefold`) is modelled on the ASCII range (uppercase
letters map to lowercase, all other characters are unchanged), matching
`Char.isUpper`; the repository's command tables and the properties below
only involve ASCII keys.
-/

/-- An opaque key identifier consumed by the key emulator. -/
abbrev ActionKey := String

/-- The part of a `twitchio.Message` the bot reads: its text, the echo
flag, and the author name (used only in a log line). -/
structure Message where
  content : String
  echo : Bool
  author : String
  deriving DecidableEq, Repr

/-- ASCII model of `str.casefold` on one character: uppercase letters
map 32 code points up (to their lowercase forms), everything else is
unchanged. -/
def charCaseFold (c : Char) : Char :=
  if c.isUpper then Char.ofNat (c.toNat + 32) else c

/-- ASCII model of `str.casefold`: fold every character. -/
def caseFold (s : String) : String :=
  String.mk (s.data.map charCaseFold)

theorem isUpper_iff_toNat (c : Char) :
    c.isUpper = true ↔ 65 ≤ c.toNat ∧ c.toNat ≤ 90 := by
  simp only [Char.isUpper, Bool.and_eq_true, decide_eq_true_eq, UInt32.le_def,
    BitVec.le_def, Char.toNat, UInt32.toNat]
  exact Iff.rfl

theorem toNat_charCaseFold_of_upper (c : Char) (h : c.isUpper = true) :
    (charCaseFold c).toNat = c.toNat + 32 := by
  have hb := (isUpper_iff_toNat c).mp h
  have hvalid : Nat.isValidChar (c.toNat + 32) := by
    left
    omega
  unfold charCaseFold
  rw [if_pos h, Char.ofNat, dif_pos hvalid]
  simp [Char.ofNatAux, Char.toNat, UInt32.toNat]

theorem charCaseFold_not_upper (c : Char) : (charCaseFold c).isUpper = false := by
  by_cases h : c.isUpper = true
  · have h1 := (isUpper_iff_toNat c).mp h
    have h2 := toNat_charCaseFold_of_upper c h
    rw [← Bool.not_eq_true]
    intro hcontra
    have h3 := (isUpper_iff_toNat _).mp hcontra
    omega
  · have hc : charCaseFold c = c := by
      unfold charCaseFold
      rw [if_neg h]
    rw [hc, ← Bool.not_eq_true]
    exact h

theorem caseFold_no_upper (s : String) :
    ∀ c ∈ (caseFold s).data, c.isUpper = false := by
  intro c hc
  simp only [caseFold, List.mem_map] at hc
  obtain ⟨d, _, rfl⟩ := hc
  exact charCaseFold_not_upper d

/-- Model of the probe `command in commandset` / `commandset[command]` on
the Python dict: find the entry whose key equals the probed string. -/
def lookupEntry (commandset : List (String × ActionKey)) (command : String) :
    Option (String × ActionKey) :=
  commandset.find? (fun entry => entry.1 == command)

/-- The value the dict lookup yields for `command`, when present. -/
def lookupKey (commandset : List (String × ActionKey)) (command : String) :
    Option ActionKey :=
  (lookupEntry commandset command).map (fun entry => entry.2)

theorem lookupEntry_key_eq (commandset : List (String × ActionKey))
    (command : String) (entry : String × ActionKey)
    (h : lookupEntry commandset command = some entry) : entry.1 = command := by
  have h2 := List.find?_some h
  simpa using h2

/-- The command string actually compared against the table keys by
`process_twitchplays_commands`: the raw message content, casefolded when
`case_insensitive` is set. -/
def normalizeCommand (case_insensitive : Bool) (content : String) : String :=
  if case_insensitive then caseFold content else content

/-- The bot state touched by the embedded methods: the configured timing
values, the command table, the case flag, the control switch
`twitchplays_commands_enabled` (initially true), and the FIFO
`input_queue` (head = front of the queue). -/
structure BotState where
  keypress_delay : ℚ
  keypress_duration : ℚ
  commandset : List (String × ActionKey)
  case_insensitive : Bool
  twitchplays_commands_enabled : Bool
  input_queue : List ActionKey
  deriving DecidableEq, Repr

/-- Observable side effects, recorded in order of occurrence. -/
inductive Event where
  | logInfo (msg : String)
  | logError (msg : String)
  | dequeue (k : ActionKey)
  | keyDown (k : ActionKey)
  | keyUp (k : ActionKey)
  | sleep (t : ℚ)
  | enqueue (k : ActionKey)
  | submitWorker
  | handleCommands
  deriving DecidableEq, Repr

/-- Whether an event is a `time.sleep` call. -/
def Event.isSleep : Event → Bool
  | .sleep _ => true
  | _ => false

/-- Whether an event reports an error (an error-level log entry). -/
def Event.isErrorReport : Event → Bool
  | .logError _ => true
  | _ => false

/-- Embeds `twitchplays_commands_toggle`: flip the flag, then log the new
status. -/
def twitchplays_commands_toggle (st : BotState) : BotState × List Event :=
  let st2 := { st with twitchplays_commands_enabled := !st.twitchplays_commands_enabled }
  let status := if st2.twitchplays_commands_enabled then "enabled" else "disabled"
  (st2, [Event.logInfo ("Twitch Plays commands " ++ status ++ ".")])

/-- The key emulation capability (`pydirectinput` / `pyautogui`): which
`keyDown` / `keyUp` calls raise an exception. -/
structure Emulator where
  failDown : ActionKey → Bool
  failUp : ActionKey → Bool

/-- An exception raised by `keyDown` or `keyUp`. -/
inductive EmulationError where
  | down (k : ActionKey)
  | up (k : ActionKey)
  deriving DecidableEq, Repr

/-- Embeds the worker body `input_queue_pop`: log, take one key from the
front of the queue, log, `keyDown`, sleep `keypress_duration`, `keyUp`,
sleep `keypress_delay`.  A raised emulation exception aborts the rest of
the body and propagates out (`Except.error`).  `none` models the worker
blocking on `Queue.get` when the queue is empty. -/
def input_queue_pop (emu : Emulator) (st : BotState) :
    Option (BotState × List Event × Except EmulationError Unit) :=
  match st.input_queue with
  | [] => none
  | key_to_press :: rest =>
    let st2 := { st with input_queue := rest }
    let pre : List Event :=
      [Event.logInfo "Handling one input from queue.",
       Event.dequeue key_to_press,
       Event.logInfo ("Executing input: " ++ key_to_press ++ ".")]
    if emu.failDown key_to_press then
      some (st2, pre, Except.error (EmulationError.down key_to_press))
    else
      let tr1 := pre ++ [Event.keyDown key_to_press, Event.sleep st.keypress_duration]
      if emu.failUp key_to_press then
        some (st2, tr1, Except.error (EmulationError.up key_to_press))
      else
        some (st2, tr1 ++ [Event.keyUp key_to_press, Event.sleep st.keypress_delay],
          Except.ok ())

/-- The thread pool running one submitted `input_queue_pop` task: an
exception escaping the task is captured in the task's `Future`; the
`Future` is discarded by the submitter, so the captured error (the third
component, when `some`) is observed by nobody. -/
def runWorkerTask (emu : Emulator) (st : BotState) :
    Option (BotState × List Event × Option EmulationError) :=
  match input_queue_pop emu st with
  | none => none
  | some (st2, tr, Except.ok ()) => some (st2, tr, none)
  | some (st2, tr, Except.error e) => some (st2, tr, some e)

/-- Embeds `process_twitchplays_commands`: normalize the message content,
probe the command table; on a hit, log, put the mapped key on the input
queue and submit one `input_queue_pop` task, returning `true`; on a miss
return `false` with no effect. -/
def process_twitchplays_commands (st : BotState) (message : Message) :
    BotState × Bool × List Event :=
  let command := normalizeCommand st.case_insensitive message.content
  match lookupEntry st.commandset command with
  | some entry =>
    let key_to_press := entry.2
    ({ st with input_queue := st.input_queue ++ [key_to_press] },
     true,
     [Event.logInfo ("Queueing input: " ++ key_to_press ++ "."),
      Event.enqueue key_to_press,
      Event.submitWorker])
  | none => (st, false, [])

/-- Embeds `event_message`: drop echo messages; log the user message;
when the control switch is on, run `process_twitchplays_commands`;
finally hand the message to the framework command handler (external).
The middle component instruments the call: `some b` when
`process_twitchplays_commands` ran and returned `b`, `none` when it was
never invoked (the Python method itself returns `None` either way). -/
def event_message (st : BotState) (message : Message) :
    BotState × Option Bool × List Event :=
  if message.echo then
    (st, none, [Event.logInfo ("Ignoring message from bot: " ++ message.content)])
  else
    let pre : List Event :=
      [Event.logInfo ("Got user message: " ++ message.author ++ ": " ++ message.content)]
    if st.twitchplays_commands_enabled then
      let r := process_twitchplays_commands st message
      (r.1, some r.2.1, pre ++ r.2.2 ++ [Event.handleCommands])
    else
      (st, none, pre ++ [Event.handleCommands])

/-- The configuration values `main` reads from `config.toml` and feeds to
the bot constructor and hotkey registration. -/
structure BotConfig where
  case_insensitive : Bool
  input_threads : ℕ
  keypress_duration : ℚ
  keypress_delay : ℚ
  keys : List (String × ActionKey)
  deriving DecidableEq, Repr

/-- Embeds the `TwitchPlaysRetroArchBot(...)` construction in `main`,
with the constructor's defaulting and attribute assignments inlined.
`main` passes `config['bot']['keypress_duration']` as BOTH the
`keypress_duration` and the `keypress_delay` arguments; the loaded
`keypress_delay` value is never used.  The control switch starts
enabled and the queue empty. -/
def mkBot (config : BotConfig) : BotState :=
  { keypress_delay := config.keypress_duration,
    keypress_duration := config.keypress_duration,
    commandset := config.keys,
    case_insensitive := config.case_insensitive,
    twitchplays_commands_enabled := true,
    input_queue := [] }

/-- C8: applying `twitchplays_commands_toggle` twice returns the control
switch to its original value; one application negates it, and the flag is
always one of the two boolean values. -/
theorem toggle_involution (st : BotState) :
    (twitchplays_commands_toggle (twitchplays_commands_toggle st).1).1.twitchplays_commands_enabled
        = st.twitchplays_commands_enabled
    ∧ (twitchplays_commands_toggle st).1.twitchplays_commands_enabled
        = !st.twitchplays_commands_enabled
    ∧ ((twitchplays_commands_toggle st).1.twitchplays_commands_enabled = true
        ∨ (twitchplays_commands_toggle st).1.twitchplays_commands_enabled = false) := by
  refine ⟨?_, rfl, ?_⟩
  · simp [twitchplays_commands_toggle]
  · cases h : (twitchplays_commands_toggle st).1.twitchplays_commands_enabled
    · right
      rfl
    · left
      rfl

/-- A small command table in the shape of `test_keys_fbneo` (note the
uppercase key `COIN`). -/
def sampleCommandset : List (String × ActionKey) :=
  [("up", "up"), ("start", "enter"), ("button1", "z"), ("COIN", "shiftright")]

/-- A concrete bot state used to instantiate the general theorems. -/
def sampleBot : BotState :=
  { keypress_delay := 2,
    keypress_duration := 1,
    commandset := sampleCommandset,
    case_insensitive := true,
    twitchplays_commands_enabled := true,
    input_queue := [] }

/-- An emulator on which every key press succeeds. -/
def emuOk : Emulator :=
  { failDown := fun _ => false, failUp := fun _ => false }

/-- An emulator on which `keyDown` for the key `z` raises. -/
def emuFailZ : Emulator :=
  { failDown := fun k => k == "z", failUp := fun _ => false }

/-- C2: for a non-echo message whose normalized text is a key of the
command table, with the control switch enabled, `event_message` invokes
the processor, which returns `true`, and exactly the table's mapped value
for that key is appended to the input queue. -/
theorem match_enqueues_mapped_value (st : BotState) (m : Message) (v : ActionKey)
    (hen : st.twitchplays_commands_enabled = true)
    (hecho : m.echo = false)
    (hl : lookupKey st.commandset (normalizeCommand st.case_insensitive m.content) = some v) :
    (event_message st m).2.1 = some true
    ∧ (event_message st m).1.input_queue = st.input_queue ++ [v] := by
  obtain ⟨entry, hent, hv⟩ :
      ∃ entry, lookupEntry st.commandset (normalizeCommand st.case_insensitive m.content)
          = some entry ∧ entry.2 = v := by
    simpa [lookupKey, Option.map_eq_some'] using hl
  constructor
  · simp [event_message, hecho, hen, process_twitchplays_commands, hent]
  · simp [event_message, hecho, hen, process_twitchplays_commands, hent, hv]

/-- Witness for `match_enqueues_mapped_value` at a concrete bot state and
message. -/
theorem match_enqueues_mapped_value_witness :
    (event_message sampleBot (Message.mk "UP" false "alice")).2.1 = some true
    ∧ (event_message sampleBot (Message.mk "UP" false "alice")).1.input_queue
        = sampleBot.input_queue ++ ["up"] :=
  match_enqueues_mapped_value sampleBot (Message.mk "UP" false "alice") "up"
    (by decide) (by decide) (by decide)

/-- C3: for a non-echo message with the control switch disabled,
`event_message` leaves the bot state (in particular the input queue)
unchanged, never invokes the processor (the command table is not
consulted, so no command is reported queued), and its trace records only
the user-message log line and the framework command hand-off — nothing is
enqueued, submitted, or buffered. -/
theorem disabled_drops_message (st : BotState) (m : Message)
    (hecho : m.echo = false)
    (hdis : st.twitchplays_commands_enabled = false) :
    (event_message st m).1 = st
    ∧ (event_message st m).2.1 = none
    ∧ ((event_message st m).2.1.getD false) = false
    ∧ (event_message st m).2.2
        = [Event.logInfo ("Got user message: " ++ m.author ++ ": " ++ m.content),
           Event.handleCommands] := by
  refine ⟨?_, ?_, ?_, ?_⟩ <;> simp [event_message, hecho, hdis]

/-- Witness for `disabled_drops_message` at a concrete bot state and
message. -/
theorem disabled_drops_message_witness :
    (event_message { sampleBot with twitchplays_commands_enabled := false }
        (Message.mk "up" false "alice")).1
      = { sampleBot with twitchplays_commands_enabled := false }
    ∧ (event_message { sampleBot with twitchplays_commands_enabled := false }
        (Message.mk "up" false "alice")).2.1 = none
    ∧ ((event_message { sampleBot with twitchplays_commands_enabled := false }
        (Message.mk "up" false "alice")).2.1.getD false) = false
    ∧ (event_message { sampleBot with twitchplays_commands_enabled := false }
        (Message.mk "up" false "alice")).2.2
      = [Event.logInfo ("Got user message: " ++ "alice" ++ ": " ++ "up"),
         Event.handleCommands] :=
  disabled_drops_message { sampleBot with twitchplays_commands_enabled := false }
    (Message.mk "up" false "alice") (by decide) (by decide)

/-- C6: for a message whose normalized text matches no command-table
entry, the processor returns `false` and has no effect at all: the state
(in particular the input queue) is unchanged and the trace is empty (no
enqueue, no worker submission, no log line). -/
theorem miss_no_effect (st : BotState) (m : Message)
    (hl : lookupEntry st.commandset (normalizeCommand st.case_insensitive m.content) = none) :
    process_twitchplays_commands st m = (st, false, []) := by
  simp [process_twitchplays_commands, hl]

/-- Witness for `miss_no_effect` at a concrete bot state and message. -/
theorem miss_no_effect_witness :
    process_twitchplays_commands sampleBot (Message.mk "jump" false "alice")
      = (sampleBot, false, []) :=
  miss_no_effect sampleBot (Message.mk "jump" false "alice") (by decide)

/-- C5: when the command table maps the key `up`, with `case_insensitive`
set the messages `UP` and `up` both match that entry (both return `true`
and enqueue its mapped value, because the message is casefolded before
the lookup); with `case_insensitive` unset, a message matches exactly
when its exact-case content is a table key. -/
theorem case_insensitive_matching (st : BotState) (v : ActionKey)
    (hup : lookupKey st.commandset "up" = some v) :
    (st.case_insensitive = true →
      ∀ author : String,
        (process_twitchplays_commands st (Message.mk "UP" false author)).2.1 = true
        ∧ (process_twitchplays_commands st (Message.mk "UP" false author)).1.input_queue
            = st.input_queue ++ [v]
        ∧ (process_twitchplays_commands st (Message.mk "up" false author)).2.1 = true
        ∧ (process_twitchplays_commands st (Message.mk "up" false author)).1.input_queue
            = st.input_queue ++ [v])
    ∧ (st.case_insensitive = false →
      ∀ content author : String,
        ((process_twitchplays_commands st (Message.mk content false author)).2.1 = true
          ↔ (lookupEntry st.commandset content).isSome = true)) := by
  obtain ⟨entry, hent, hv⟩ :
      ∃ entry, lookupEntry st.commandset "up" = some entry ∧ entry.2 = v := by
    simpa [lookupKey, Option.map_eq_some'] using hup
  constructor
  · intro hci author
    have hUP : normalizeCommand st.case_insensitive "UP" = "up" := by
      simp [normalizeCommand, hci]
      decide
    have hup2 : normalizeCommand st.case_insensitive "up" = "up" := by
      simp [normalizeCommand, hci]
      decide
    refine ⟨?_, ?_, ?_, ?_⟩ <;>
      simp [process_twitchplays_commands, hUP, hup2, hent, hv]
  · intro hci content author
    have hc : normalizeCommand st.case_insensitive content = content := by
      simp [normalizeCommand, hci]
    cases hlk : lookupEntry st.commandset content <;>
      simp [process_twitchplays_commands, hc, hlk]

/-- Witness for `case_insensitive_matching` on the sample bot (the
case-insensitive side, instantiated). -/
theorem case_insensitive_matching_witness :
    (process_twitchplays_commands sampleBot (Message.mk "UP" false "alice")).2.1 = true
    ∧ (process_twitchplays_commands sampleBot (Message.mk "UP" false "alice")).1.input_queue
        = sampleBot.input_queue ++ ["up"]
    ∧ (process_twitchplays_commands sampleBot (Message.mk "up" false "alice")).2.1 = true
    ∧ (process_twitchplays_commands sampleBot (Message.mk "up" false "alice")).1.input_queue
        = sampleBot.input_queue ++ ["up"] :=
  (case_insensitive_matching sampleBot "up" (by decide)).1 (by decide) "alice"

/-- C10: with `case_insensitive` set, the string compared against the
table keys is the casefolded message content, which contains no uppercase
character; so an entry whose key contains an uppercase character (such as
`COIN` in `test_keys_fbneo`) is never matched: no message normalizes to
that key and the dict probe never yields that entry. -/
theorem uppercase_key_unreachable (st : BotState) (hci : st.case_insensitive = true)
    (k : String) (hk : k.data.any Char.isUpper = true) (m : Message) :
    normalizeCommand st.case_insensitive m.content ≠ k
    ∧ ∀ v : ActionKey,
        lookupEntry st.commandset (normalizeCommand st.case_insensitive m.content)
          ≠ some (k, v) := by
  have h1 : normalizeCommand st.case_insensitive m.content = caseFold m.content := by
    simp [normalizeCommand, hci]
  have hne : caseFold m.content ≠ k := by
    intro heq
    obtain ⟨c, hc, hcu⟩ := List.any_eq_true.mp hk
    have hcmem : c ∈ (caseFold m.content).data := by
      rw [heq]
      exact hc
    have := caseFold_no_upper m.content c hcmem
    rw [this] at hcu
    exact Bool.false_ne_true hcu
  refine ⟨h1 ▸ hne, ?_⟩
  intro v hsome
  have hkey := lookupEntry_key_eq _ _ _ hsome
  rw [h1] at hkey
  exact hne hkey.symm

/-- Witness for `uppercase_key_unreachable`: on the sample bot, the
message `coin` does not normalize to the key `COIN`, and the probe never
yields the `COIN` entry. -/
theorem uppercase_key_unreachable_witness :
    normalizeCommand sampleBot.case_insensitive "coin" ≠ "COIN"
    ∧ lookupEntry sampleBot.commandset (normalizeCommand sampleBot.case_insensitive "coin")
        ≠ some ("COIN", "shiftright") := by
  have h := uppercase_key_unreachable sampleBot (by decide) "COIN" (by decide)
    (Message.mk "coin" false "alice")
  exact ⟨h.1, h.2 "shiftright"⟩

/-- C7: a worker's execution cycle on a dequeued key `k`, absent
emulation failures, performs exactly — and in this fixed order — the
dequeue, `keyDown k`, a hold of `keypress_duration`, `keyUp` on the same
`k`, and a hold of `keypress_delay` before the task ends (two log lines
interleaved); and this is the only deliberate blocking: the
message-handling path (`event_message`) performs no sleep at all. -/
theorem worker_cycle_fixed_sequence :
    (∀ (emu : Emulator) (st : BotState) (k : ActionKey) (rest : List ActionKey),
      st.input_queue = k :: rest → emu.failDown k = false → emu.failUp k = false →
      input_queue_pop emu st =
        some ({ st with input_queue := rest },
          [Event.logInfo "Handling one input from queue.",
           Event.dequeue k,
           Event.logInfo ("Executing input: " ++ k ++ "."),
           Event.keyDown k,
           Event.sleep st.keypress_duration,
           Event.keyUp k,
           Event.sleep st.keypress_delay],
          Except.ok ()))
    ∧ (∀ (st : BotState) (m : Message),
        ((event_message st m).2.2.countP Event.isSleep) = 0) := by
  constructor
  · intro emu st k rest hq hfd hfu
    simp [input_queue_pop, hq, hfd, hfu]
  · intro st m
    by_cases he : m.echo
    · simp [event_message, he, Event.isSleep]
    · by_cases hen : st.twitchplays_commands_enabled
      · cases hlk : lookupEntry st.commandset (normalizeCommand st.case_insensitive m.content) with
        | none =>
          simp [event_message, he, hen, process_twitchplays_commands, hlk, Event.isSleep]
        | some entry =>
          simp [event_message, he, hen, process_twitchplays_commands, hlk, Event.isSleep]
      · simp [event_message, he, hen, Event.isSleep]

/-- Witness for `worker_cycle_fixed_sequence` on a concrete state with
one queued key. -/
theorem worker_cycle_fixed_sequence_witness :
    input_queue_pop emuOk { sampleBot with input_queue := ["up"] } =
      some ({ sampleBot with input_queue := [] },
        [Event.logInfo "Handling one input from queue.",
         Event.dequeue "up",
         Event.logInfo ("Executing input: " ++ "up" ++ "."),
         Event.keyDown "up",
         Event.sleep sampleBot.keypress_duration,
         Event.keyUp "up",
         Event.sleep sampleBot.keypress_delay],
        Except.ok ()) :=
  worker_cycle_fixed_sequence.1 emuOk { sampleBot with input_queue := ["up"] }
    "up" [] rfl rfl rfl

/-- A configuration whose two timing values differ, exposing the wiring
of the post-key-up hold. -/
def divergentConfig : BotConfig :=
  { case_insensitive := true,
    input_threads := 1,
    keypress_duration := 1,
    keypress_delay := 2,
    keys := [("up", "up")] }

/-- C1: `main` wires the bot's `keypress_delay` attribute from the
configuration's `keypress_duration` value, for every configuration; on
`divergentConfig` (duration 1, delay 2) the worker cycle therefore holds
1 second both between key-down and key-up and after key-up — the second
hold differs from the configuration's `keypress_delay` of 2. -/
theorem keypress_delay_miswired :
    (∀ config : BotConfig, (mkBot config).keypress_delay = config.keypress_duration)
    ∧ (mkBot divergentConfig).keypress_delay = 1
    ∧ divergentConfig.keypress_delay = 2
    ∧ (mkBot divergentConfig).keypress_delay ≠ divergentConfig.keypress_delay
    ∧ (input_queue_pop emuOk { mkBot divergentConfig with input_queue := ["up"] }).map
        (fun r => r.2.1.filter Event.isSleep)
      = some [Event.sleep 1, Event.sleep 1] := by
  refine ⟨fun config => rfl, by decide, by decide, by decide, by decide⟩

/-- A bot state with the key `z` queued for the worker. -/
def stZ : BotState := { sampleBot with input_queue := ["z"] }

/-- C4 counterexample: on `stZ` with an emulator whose `keyDown z`
raises, the worker task runs, an `EmulationError` is captured
(`isSome = true`), and the task's trace contains zero error reports — the
error is NOT logged anywhere; the body has no handler and the submitter
discards the `Future` that holds the exception. -/
theorem emulation_error_never_reported :
    (runWorkerTask emuFailZ stZ).map
        (fun r => (r.2.2.isSome, r.2.1.countP Event.isErrorReport))
      = some (true, 0) := by
  decide

/-- C4 (amended): an `EmulationError` raised by `keyDown` or `keyUp` is
local to the worker's unit of work: the task still completes (the item
stays consumed), the exception is captured into the task's result —
where it is silently discarded, never logged — it reaches neither the
message path nor the process, and the worker accepts the next unit of
work from the queue. -/
theorem emulation_error_contained (emu : Emulator) (st : BotState)
    (k : ActionKey) (rest : List ActionKey)
    (hq : st.input_queue = k :: rest) :
    ∃ st2 tr res, runWorkerTask emu st = some (st2, tr, res)
      ∧ st2 = { st with input_queue := rest }
      ∧ tr.countP Event.isErrorReport = 0
      ∧ (res.isSome = true ↔ (emu.failDown k || emu.failUp k) = true)
      ∧ (∀ k2 rest2, rest = k2 :: rest2 → (runWorkerTask emu st2).isSome = true) := by
  have hnext : ∀ k2 rest2, rest = k2 :: rest2 →
      (runWorkerTask emu { st with input_queue := rest }).isSome = true := by
    intro k2 rest2 hrest
    subst hrest
    cases hfd2 : emu.failDown k2 <;> cases hfu2 : emu.failUp k2 <;>
      simp [runWorkerTask, input_queue_pop, hfd2, hfu2]
  cases hfd : emu.failDown k with
  | true =>
    have hrun : runWorkerTask emu st =
        some ({ st with input_queue := rest },
          [Event.logInfo "Handling one input from queue.",
           Event.dequeue k,
           Event.logInfo ("Executing input: " ++ k ++ ".")],
          some (EmulationError.down k)) := by
      simp [runWorkerTask, input_queue_pop, hq, hfd]
    exact ⟨_, _, _, hrun, rfl,
      by simp [Event.isErrorReport, List.countP_cons], by simp [hfd], hnext⟩
  | false =>
    cases hfu : emu.failUp k with
    | true =>
      have hrun : runWorkerTask emu st =
          some ({ st with input_queue := rest },
            [Event.logInfo "Handling one input from queue.",
             Event.dequeue k,
             Event.logInfo ("Executing input: " ++ k ++ "."),
             Event.keyDown k,
             Event.sleep st.keypress_duration],
            some (EmulationError.up k)) := by
        simp [runWorkerTask, input_queue_pop, hq, hfd, hfu]
      exact ⟨_, _, _, hrun, rfl,
        by simp [Event.isErrorReport, List.countP_cons], by simp [hfd, hfu], hnext⟩
    | false =>
      have hrun : runWorkerTask emu st =
          some ({ st with input_queue := rest },
            [Event.logInfo "Handling one input from queue.",
             Event.dequeue k,
             Event.logInfo ("Executing input: " ++ k ++ "."),
             Event.keyDown k,
             Event.sleep st.keypress_duration,
             Event.keyUp k,
             Event.sleep st.keypress_delay],
            none) := by
        simp [runWorkerTask, input_queue_pop, hq, hfd, hfu]
      exact ⟨_, _, _, hrun, rfl,
        by simp [Event.isErrorReport, List.countP_cons], by simp [hfd, hfu], hnext⟩

/-- Witness for `emulation_error_contained` on `stZ` and the failing
emulator. -/
theorem emulation_error_contained_witness :
    stZ.input_queue = "z" :: []
    ∧ ∃ st2 tr res, runWorkerTask emuFailZ stZ = some (st2, tr, res)
      ∧ st2 = { stZ with input_queue := [] }
      ∧ tr.countP Event.isErrorReport = 0
      ∧ (res.isSome = true ↔ (emuFailZ.failDown "z" || emuFailZ.failUp "z") = true)
      ∧ (∀ k2 rest2, ([] : List ActionKey) = k2 :: rest2 →
          (runWorkerTask emuFailZ st2).isSome = true) :=
  ⟨rfl, emulation_error_contained emuFailZ stZ "z" [] rfl⟩

/-- A snapshot of the dispatch machinery: the FIFO `input_queue` contents,
the number of submitted-but-unstarted `input_queue_pop` tasks, and the
in-flight workers by phase — started but not yet past `Queue.get`
(`initWorkers`), holding a key between `get` and `keyDown`
(`activeKeys`), or between `keyDown` and `keyUp` (`downedKeys`) — plus
the keys whose down/up pair has completed (`completed`). -/
structure PoolConfig where
  queue : List ActionKey
  pending : ℕ
  initWorkers : ℕ
  activeKeys : List ActionKey
  downedKeys : List ActionKey
  completed : List ActionKey
  deriving DecidableEq, Repr

/-- Interleaved execution of `input_queue_pop` tasks on a thread pool of
`K` workers: a pending task may start when a worker slot is free; a
started task takes the queue head (blocking while the queue is empty); it
then presses its key down and up — any in-flight worker may take its next
step at any time, so key sequences of different workers overlap freely. -/
inductive PoolStep (K : ℕ) : PoolConfig → PoolConfig → Prop where
  | spawn (q : List ActionKey) (p w : ℕ) (a d comp : List ActionKey)
      (hcap : w + a.length + d.length < K) :
      PoolStep K ⟨q, p + 1, w, a, d, comp⟩ ⟨q, p, w + 1, a, d, comp⟩
  | getItem (k : ActionKey) (rest : List ActionKey) (p w : ℕ) (a d comp : List ActionKey) :
      PoolStep K ⟨k :: rest, p, w + 1, a, d, comp⟩ ⟨rest, p, w, k :: a, d, comp⟩
  | pressDown (q : List ActionKey) (p w : ℕ) (a1 a2 : List ActionKey) (k : ActionKey)
      (d comp : List ActionKey) :
      PoolStep K ⟨q, p, w, a1 ++ k :: a2, d, comp⟩ ⟨q, p, w, a1 ++ a2, k :: d, comp⟩
  | pressUp (q : List ActionKey) (p w : ℕ) (a : List ActionKey) (d1 d2 : List ActionKey)
      (k : ActionKey) (comp : List ActionKey) :
      PoolStep K ⟨q, p, w, a, d1 ++ k :: d2, comp⟩ ⟨q, p, w, a, d1 ++ d2, k :: comp⟩

/-- Any interleaving of pool steps. -/
abbrev PoolSteps (K : ℕ) : PoolConfig → PoolConfig → Prop :=
  Relation.ReflTransGen (PoolStep K)

/-- The pool state after `process_twitchplays_commands` has matched the
messages mapping to `as`: each match put one key on the queue and
submitted one task. -/
def initPool (as : List ActionKey) : PoolConfig :=
  ⟨as, as.length, 0, [], [], []⟩

/-- Every submitted task has run to completion. -/
def PoolFinished (c : PoolConfig) : Prop :=
  c.pending = 0 ∧ c.initWorkers = 0 ∧ c.activeKeys = [] ∧ c.downedKeys = []

/-- The conservation invariant: every submitted key is in exactly one
place (queue, held by a worker, or completed), and tasks are conserved. -/
def PoolInv (as : List ActionKey) (c : PoolConfig) : Prop :=
  (c.queue ++ c.activeKeys ++ c.downedKeys ++ c.completed).Perm as
  ∧ c.pending + c.initWorkers + c.activeKeys.length + c.downedKeys.length
      + c.completed.length = as.length

theorem poolInv_init (as : List ActionKey) : PoolInv as (initPool as) := by
  constructor
  · simp [initPool]
  · simp [initPool]

theorem poolInv_step {K : ℕ} {as : List ActionKey} {c c2 : PoolConfig}
    (h : PoolStep K c c2) (hinv : PoolInv as c) : PoolInv as c2 := by
  obtain ⟨hperm, hcount⟩ := hinv
  cases h with
  | spawn q p w a d comp hcap =>
    refine ⟨hperm, ?_⟩
    dsimp only at hcount ⊢
    omega
  | getItem k rest p w a d comp =>
    constructor
    · dsimp only at hperm ⊢
      refine List.Perm.trans ?_ hperm
      simp only [List.append_assoc, List.cons_append]
      exact List.perm_middle
    · dsimp only at hcount ⊢
      simp only [List.length_cons] at hcount ⊢
      omega
  | pressDown q p w a1 a2 k d comp =>
    constructor
    · dsimp only at hperm ⊢
      refine List.Perm.trans ?_ hperm
      simp only [List.append_assoc, List.cons_append]
      exact (List.Perm.append_left q (List.Perm.append_left a1 List.perm_middle))
    · dsimp only at hcount ⊢
      simp only [List.length_append, List.length_cons] at hcount ⊢
      omega
  | pressUp q p w a d1 d2 k comp =>
    constructor
    · dsimp only at hperm ⊢
      refine List.Perm.trans ?_ hperm
      simp only [List.append_assoc, List.cons_append]
      exact (List.Perm.append_left q (List.Perm.append_left a
        (List.Perm.append_left d1 List.perm_middle)))
    · dsimp only at hcount ⊢
      simp only [List.length_append, List.length_cons] at hcount ⊢
      omega

theorem poolInv_of_steps {K : ℕ} {as : List ActionKey} {c : PoolConfig}
    (h : PoolSteps K (initPool as) c) : PoolInv as c := by
  induction h with
  | refl => exact poolInv_init as
  | tail hsteps hstep ih => exact poolInv_step hstep ih

theorem pool_progress {K : ℕ} (hK : 1 ≤ K) {as : List ActionKey} {c : PoolConfig}
    (hinv : PoolInv as c) (hnf : ¬PoolFinished c) : ∃ c2, PoolStep K c c2 := by
  obtain ⟨q, p, w, a, d, comp⟩ := c
  obtain ⟨hperm, hcount⟩ := hinv
  cases a with
  | cons k a2 => exact ⟨_, PoolStep.pressDown q p w [] a2 k d comp⟩
  | nil =>
    cases d with
    | cons k d2 => exact ⟨_, PoolStep.pressUp q p w [] [] d2 k comp⟩
    | nil =>
      cases hw : w with
      | succ w2 =>
        have hlen := hperm.length_eq
        simp only [List.append_nil, List.length_append, List.length_nil] at hlen
        dsimp only at hcount
        simp only [List.length_nil, hw] at hcount
        cases hq : q with
        | nil =>
          rw [hq] at hlen
          simp at hlen
          omega
        | cons k rest =>
          exact ⟨_, PoolStep.getItem k rest p w2 [] [] comp⟩
      | zero =>
        cases hp : p with
        | succ p2 =>
          have hcap : (0 : ℕ) + ([] : List ActionKey).length
              + ([] : List ActionKey).length < K := by
            simpa using hK
          exact ⟨_, PoolStep.spawn q p2 0 [] [] comp hcap⟩
        | zero =>
          exact absurd ⟨hp, hw, rfl, rfl⟩ hnf

/-- C9: from the pool state with `N` matched actions enqueued and `N`
tasks submitted, on any pool size `K ≥ 1` and along any interleaving:
whenever all tasks have completed, the completed down/up pairs are
exactly a permutation of the `N` submitted keys — each enqueued item was
dequeued by exactly one worker, exactly once, no loss, no duplication,
and the queue is empty; and a non-finished reachable state always has a
next step (no execution gets stuck), so every maximal execution
completes all `N` pairs. -/
theorem pool_exactly_once (as : List ActionKey) (K : ℕ) (hK : 1 ≤ K) (c : PoolConfig)
    (hsteps : PoolSteps K (initPool as) c) :
    (PoolFinished c → c.completed.Perm as ∧ c.queue = [])
    ∧ (¬PoolFinished c → ∃ c2, PoolStep K c c2) := by
  have hinv := poolInv_of_steps hsteps
  constructor
  · intro hfin
    obtain ⟨hperm, hcount⟩ := hinv
    obtain ⟨hp, hw, ha, hd⟩ := hfin
    rw [ha, hd] at hperm
    simp only [List.append_nil] at hperm
    have hlen := hperm.length_eq
    simp only [List.length_append] at hlen
    rw [hp, hw, ha, hd] at hcount
    simp only [List.length_nil] at hcount
    have hqnil : c.queue = [] := by
      have hq0 : c.queue.length = 0 := by omega
      exact List.length_eq_zero.mp hq0
    constructor
    · rw [hqnil] at hperm
      simpa using hperm
    · exact hqnil
  · intro hnf
    exact pool_progress hK hinv hnf

/-- Witness for `pool_exactly_once`: one action, one worker, the explicit
four-step execution. -/
theorem pool_exactly_once_witness :
    (PoolConfig.mk [] 0 0 [] [] ["z"]).completed.Perm ["z"]
    ∧ (PoolConfig.mk [] 0 0 [] [] ["z"]).queue = [] :=
  (pool_exactly_once ["z"] 1 (by decide) (PoolConfig.mk [] 0 0 [] [] ["z"])
      (Relation.ReflTransGen.head (PoolStep.spawn ["z"] 0 0 [] [] [] (by decide))
        (Relation.ReflTransGen.head (PoolStep.getItem "z" [] 0 0 [] [] [])
          (Relation.ReflTransGen.head (PoolStep.pressDown [] 0 0 [] [] "z" [] [])
            (Relation.ReflTransGen.head (PoolStep.pressUp [] 0 0 [] [] [] "z" [])
              Relation.ReflTransGen.refl))))).1
    ⟨rfl, rfl, rfl, rfl⟩
